import Mathlib

/-!
Verification of the FAWV vault-build pipeline against its specification.

The development shallowly embeds the relevant program fragments:

* `src/web/src/App.tsx` — the client demo flow: `hashFilesSHA256` (archive
  digest), `uploadToS3` (upload executor), `proceedAfterRating`/`resetFlow`
  and the step state machine, the endowment lock.
* the server upload route (`router.post("/upload/start")`) — session-id
  validation, path sanitization, object-key derivation, per-file presign.
* the chunked single-file hasher `sha256Hex` from the upload module.

Modelling conventions:

* File bytes are `List Nat` (byte values); a browser `File` object is
  modelled by its full path and its bytes.
* The SHA-256 primitive is kept abstract: `hashFilesSHA256` is parametrised
  by the hash function `H` applied to the exact byte stream the code builds.
  Statements about digest equality/difference are made relative to `H`.
* JavaScript numbers are modelled by `JSNum` (NaN, the two infinities, or an
  exact rational).  Finite arithmetic is exact (no IEEE rounding); the
  negative zero is not distinguished.  None of the claims proved here
  depend on rounding behaviour.
* `Array.prototype.sort` is a stable sort; a stable sort is uniquely
  determined by its comparator, so it is modelled by `List.insertionSort`.
  The `localeCompare` comparator is modelled as lexicographic string order.
-/

namespace Fawv

/-- Byte strings: lists of byte values. -/
abbrev Bytes := List Nat

/-- A selected file, as the client holds it: the (possibly folder-qualified)
relative path together with the file contents. -/
structure DemoFile where
  fullPath : String
  bytes : Bytes
deriving DecidableEq

/-- The bytes of a path string as fed into the hash input
(`blobs.push(item.fullPath, "\n")`): code points of the characters. -/
def pathBytes (s : String) : Bytes :=
  s.data.map Char.toNat

/-- The hash-input contribution of one file: its path, a newline delimiter,
then its bytes (from `hashFilesSHA256`). -/
def filePart (f : DemoFile) : Bytes :=
  pathBytes f.fullPath ++ [10] ++ f.bytes

/-- Lexicographic comparison of character lists, the model of the
`localeCompare`-based path comparator. -/
def charListLe : List Char → List Char → Bool
  | [], _ => true
  | _ :: _, [] => false
  | a :: as, b :: bs => if a = b then charListLe as bs else decide (a < b)

theorem charListLe_total : ∀ x y, charListLe x y = true ∨ charListLe y x = true
  | [], _ => Or.inl rfl
  | _ :: _, [] => Or.inr rfl
  | a :: as, b :: bs => by
    by_cases hab : a = b
    · subst hab
      simpa [charListLe] using charListLe_total as bs
    · rcases lt_or_gt_of_ne hab with h | h
      · left
        simp [charListLe, hab, h]
      · right
        simp [charListLe, Ne.symm hab, h]

theorem charListLe_trans :
    ∀ x y z, charListLe x y = true → charListLe y z = true → charListLe x z = true
  | [], _, _, _, _ => rfl
  | _ :: _, [], _, h, _ => by simp [charListLe] at h
  | _ :: _, _ :: _, [], _, h => by simp [charListLe] at h
  | a :: as, b :: bs, c :: cs, h1, h2 => by
    simp only [charListLe] at h1 h2 ⊢
    by_cases hab : a = b
    · subst hab
      by_cases hac : a = c
      · subst hac
        simpa using charListLe_trans as bs cs (by simpa using h1) (by simpa using h2)
      · simpa [hac] using h2
    · have hlt1 : a < b := by simpa [hab] using h1
      by_cases hbc : b = c
      · subst hbc
        simp [hab, hlt1]
      · have hlt2 : b < c := by simpa [hbc] using h2
        have hac : a < c := lt_trans hlt1 hlt2
        simp [ne_of_lt hac, hac]

theorem charListLe_antisymm :
    ∀ x y, charListLe x y = true → charListLe y x = true → x = y
  | [], [], _, _ => rfl
  | [], _ :: _, _, h => by simp [charListLe] at h
  | _ :: _, [], h, _ => by simp [charListLe] at h
  | a :: as, b :: bs, h1, h2 => by
    simp only [charListLe] at h1 h2
    by_cases hab : a = b
    · subst hab
      rw [charListLe_antisymm as bs (by simpa using h1) (by simpa using h2)]
    · have w1 : a < b := by simpa [hab] using h1
      have w2 : b < a := by simpa [Ne.symm hab] using h2
      exact absurd (lt_trans w1 w2) (lt_irrefl a)

/-- The sort relation used by `[...list].sort((a, b) =>
a.fullPath.localeCompare(b.fullPath))`: comparison on the path only. -/
def fileLe (a b : DemoFile) : Prop :=
  charListLe a.fullPath.data b.fullPath.data = true

instance : DecidableRel fileLe := fun a b =>
  inferInstanceAs (Decidable (charListLe a.fullPath.data b.fullPath.data = true))

instance : IsTotal DemoFile fileLe :=
  ⟨fun a b => charListLe_total a.fullPath.data b.fullPath.data⟩

instance : IsTrans DemoFile fileLe :=
  ⟨fun _ _ _ h h' => charListLe_trans _ _ _ h h'⟩

/-- The stable sort of the file list by path. -/
def sortFiles (l : List DemoFile) : List DemoFile :=
  List.insertionSort fileLe l

/-- Concatenation of the per-file parts in list order. -/
def concatParts : List DemoFile → Bytes
  | [] => []
  | f :: fs => filePart f ++ concatParts fs

/-- The exact byte stream `hashFilesSHA256` assembles and hashes: the files
sorted by path, each contributing path ++ "\n" ++ contents. -/
def archiveStream (l : List DemoFile) : Bytes :=
  concatParts (sortFiles l)

/-- `hashFilesSHA256`, with the SHA-256 primitive abstracted as `H`. -/
def hashFilesSHA256 (H : Bytes → Bytes) (l : List DemoFile) : Bytes :=
  H (archiveStream l)

/-- Peak buffer size of the multi-file digest path: `hashFilesSHA256`
materialises the whole concatenated Blob in a single `ArrayBuffer`
(`const ab = await new Blob(blobs).arrayBuffer()`), so the buffer holds the
entire stream. -/
def hashFilesPeakBuffer (l : List DemoFile) : Nat :=
  (archiveStream l).length

end Fawv

namespace Fawv

/-- Strict path order between files: at most as large, with distinct paths. -/
def fileLt (a b : DemoFile) : Prop :=
  fileLe a b ∧ a.fullPath ≠ b.fullPath

theorem sortFiles_perm (l : List DemoFile) : (sortFiles l).Perm l :=
  List.perm_insertionSort fileLe l

theorem sortFiles_sorted (l : List DemoFile) : List.Sorted fileLe (sortFiles l) :=
  List.sorted_insertionSort fileLe l

/-- A sorted list whose paths are pairwise distinct is sorted for the strict
path order. -/
theorem sorted_strict_of_sorted_nodup {l : List DemoFile}
    (hs : List.Sorted fileLe l) (hd : (l.map DemoFile.fullPath).Nodup) :
    List.Pairwise fileLt l := by
  have hd' : List.Pairwise (fun a b : DemoFile => a.fullPath ≠ b.fullPath) l :=
    (List.pairwise_map).mp hd
  exact (hs.and hd').imp (fun h => ⟨h.1, h.2⟩)

end Fawv

namespace Fawv

/-- C1 (amended): for file lists whose paths are pairwise distinct, the
archive digest is invariant under any permutation of the list, for every
hash primitive: the stable sort by path canonicalises the order. -/
theorem hashFiles_order_independent (H : Bytes → Bytes)
    (l l' : List DemoFile) (hp : l.Perm l')
    (hd : (l.map DemoFile.fullPath).Nodup) :
    hashFilesSHA256 H l = hashFilesSHA256 H l' := by
  suffices h : sortFiles l = sortFiles l' by
    unfold hashFilesSHA256 archiveStream
    rw [h]
  have hd' : (l'.map DemoFile.fullPath).Nodup := ((hp.map _).nodup_iff).mp hd
  have pp : (sortFiles l).Perm (sortFiles l') :=
    ((sortFiles_perm l).trans hp).trans (sortFiles_perm l').symm
  have s1 : List.Pairwise fileLt (sortFiles l) :=
    sorted_strict_of_sorted_nodup (sortFiles_sorted l)
      (((sortFiles_perm l).map _).nodup_iff.mpr hd)
  have s2 : List.Pairwise fileLt (sortFiles l') :=
    sorted_strict_of_sorted_nodup (sortFiles_sorted l')
      (((sortFiles_perm l').map _).nodup_iff.mpr hd')
  haveI : IsAntisymm DemoFile fileLt := by
    refine ⟨fun a b h1 h2 => ?_⟩
    exact absurd (String.ext (charListLe_antisymm _ _ h1.1 h2.1)) h1.2
  exact List.eq_of_perm_of_sorted pp s1 s2

/-- C1 witness: a concrete two-file vault hashes identically in either
traversal order. -/
theorem hashFiles_order_independent_witness :
    hashFilesSHA256 id [⟨"b", [2]⟩, ⟨"a", [1]⟩]
      = hashFilesSHA256 id [⟨"a", [1]⟩, ⟨"b", [2]⟩] :=
  hashFiles_order_independent id _ _ (by decide) (by decide)

/-- C1 counterexample: the claim quantifies over every list of
(path, bytes) pairs; a list holding the same path twice with different
bytes breaks permutation-invariance, because the stable sort preserves the
input order of entries with equal paths.  With the identity in place of
the hash primitive the two digests differ. -/
theorem hashFiles_order_dependent_on_duplicate_paths :
    ([⟨"a", [0]⟩, ⟨"a", [1]⟩] : List DemoFile).Perm [⟨"a", [1]⟩, ⟨"a", [0]⟩]
      ∧ hashFilesSHA256 id [⟨"a", [0]⟩, ⟨"a", [1]⟩]
          ≠ hashFilesSHA256 id [⟨"a", [1]⟩, ⟨"a", [0]⟩] := by
  constructor
  · decide
  · decide

end Fawv

namespace Fawv

/-- A newline-delimited prefix is recovered uniquely from a byte stream when
the prefix itself holds no newline byte. -/
theorem append_newline_inj :
    ∀ (x y r s : Bytes), 10 ∉ x → 10 ∉ y →
      x ++ 10 :: r = y ++ 10 :: s → x = y ∧ r = s
  | [], [], r, s, _, _, h => by simpa using h
  | [], b :: ys, r, s, _, hy, h => by
    simp only [List.nil_append, List.cons_append, List.cons.injEq] at h
    exact absurd (h.1 ▸ List.mem_cons_self b ys) (fun hm => hy hm)
  | a :: xs, [], r, s, hx, _, h => by
    simp only [List.nil_append, List.cons_append, List.cons.injEq] at h
    exact absurd (h.1 ▸ List.mem_cons_self a xs) (fun hm => hx hm)
  | a :: xs, b :: ys, r, s, hx, hy, h => by
    simp only [List.cons_append, List.cons.injEq] at h
    have hxs : 10 ∉ xs := fun hm => hx (List.mem_cons_of_mem a hm)
    have hys : 10 ∉ ys := fun hm => hy (List.mem_cons_of_mem b hm)
    have ih := append_newline_inj xs ys r s hxs hys h.2
    exact ⟨by rw [h.1, ih.1], ih.2⟩

/-- A file is newline-clean when neither its path bytes nor its contents
contain the delimiter byte. -/
def newlineClean (f : DemoFile) : Prop :=
  10 ∉ pathBytes f.fullPath ∧ 10 ∉ f.bytes

instance : DecidablePred newlineClean := fun f =>
  inferInstanceAs (Decidable (10 ∉ pathBytes f.fullPath ∧ 10 ∉ f.bytes))

instance : DecidableRel fileLt := fun a b =>
  inferInstanceAs (Decidable (fileLe a b ∧ a.fullPath ≠ b.fullPath))

/-- For two file lists carrying the same path sequence, all parts
newline-clean, a shared unstructured byte prefix and the concatenated
streams determine the prefix and the contents uniquely. -/
theorem concatParts_prefix_inj :
    ∀ (fs gs : List DemoFile) (b b' : Bytes),
      fs.map DemoFile.fullPath = gs.map DemoFile.fullPath →
      (∀ f ∈ fs, newlineClean f) → (∀ f ∈ gs, newlineClean f) →
      10 ∉ b → 10 ∉ b' →
      b ++ concatParts fs = b' ++ concatParts gs → b = b' ∧ fs = gs
  | [], [], b, b', _, _, _, _, _, h => by simpa using h
  | [], g :: gs, b, b', hmap, _, _, _, _, _ => by simp at hmap
  | f :: fs, [], b, b', hmap, _, _, _, _, _ => by simp at hmap
  | f :: fs, g :: gs, b, b', hmap, hfs, hgs, hb, hb', h => by
    simp only [List.map_cons, List.cons.injEq] at hmap
    have hf : newlineClean f := hfs f (List.mem_cons_self f fs)
    have hg : newlineClean g := hgs g (List.mem_cons_self g gs)
    have hpg : pathBytes g.fullPath = pathBytes f.fullPath := by rw [hmap.1]
    have hshape :
        (b ++ pathBytes f.fullPath) ++ 10 :: (f.bytes ++ concatParts fs)
          = (b' ++ pathBytes f.fullPath) ++ 10 :: (g.bytes ++ concatParts gs) := by
      simpa [concatParts, filePart, hpg, List.append_assoc] using h
    have hnb : 10 ∉ b ++ pathBytes f.fullPath := by
      intro hm
      rcases List.mem_append.mp hm with hm | hm
      · exact hb hm
      · exact hf.1 hm
    have hnb' : 10 ∉ b' ++ pathBytes f.fullPath := by
      intro hm
      rcases List.mem_append.mp hm with hm | hm
      · exact hb' hm
      · exact hf.1 hm
    have step := append_newline_inj _ _ _ _ hnb hnb' hshape
    have hbeq : b = b' := by
      have hlen : b.length = b'.length := by
        have := congrArg List.length step.1
        simpa using this
      exact (List.append_inj step.1 hlen).1
    have ih := concatParts_prefix_inj fs gs f.bytes g.bytes hmap.2
      (fun x hx => hfs x (List.mem_cons_of_mem f hx))
      (fun x hx => hgs x (List.mem_cons_of_mem g hx))
      hf.2 hg.2 step.2
    refine ⟨hbeq, ?_⟩
    have hfg : f = g := by
      cases f with
      | mk fp fb =>
        cases g with
        | mk gp gb =>
          simp only at hmap ih
          rw [hmap.1, ih.1]
    rw [hfg, ih.2]

/-- C2 (amended): the digest is a fingerprint of the path assignment in the
following sense: for two vaults over the same strictly sorted path sequence,
with every path and every file content free of the newline delimiter byte,
any difference in the contents assigned to the paths changes the byte stream
fed to the hash, hence the digest under an injective hash primitive. -/
theorem hashFiles_fingerprints_path_assignment
    (H : Bytes → Bytes) (hinj : Function.Injective H)
    (l l' : List DemoFile)
    (hpaths : l.map DemoFile.fullPath = l'.map DemoFile.fullPath)
    (hsorted : List.Pairwise fileLt l)
    (hnl : ∀ f ∈ l, newlineClean f) (hnl' : ∀ f ∈ l', newlineClean f)
    (hne : l ≠ l') :
    hashFilesSHA256 H l ≠ hashFilesSHA256 H l' := by
  have hsorted' : List.Pairwise fileLt l' := by
    have hp : List.Pairwise
        (fun a b : String => charListLe a.data b.data = true ∧ a ≠ b)
        (l.map DemoFile.fullPath) := by
      refine (List.pairwise_map).mpr ?_
      exact hsorted.imp (fun h => ⟨h.1, h.2⟩)
    rw [hpaths] at hp
    exact ((List.pairwise_map).mp hp).imp (fun h => ⟨h.1, h.2⟩)
  have hs1 : sortFiles l = l :=
    (List.Sorted.insertionSort_eq (hsorted.imp (fun h => h.1)))
  have hs2 : sortFiles l' = l' :=
    (List.Sorted.insertionSort_eq (hsorted'.imp (fun h => h.1)))
  intro hEq
  have hstream : archiveStream l = archiveStream l' := hinj hEq
  rw [archiveStream, archiveStream, hs1, hs2] at hstream
  have := concatParts_prefix_inj l l' [] [] hpaths hnl hnl'
    (by simp) (by simp) (by simpa using hstream)
  exact hne this.2

/-- C2 witness: two concrete newline-clean two-file vaults over paths
`a < b` with swapped contents produce different streams. -/
theorem hashFiles_fingerprints_path_assignment_witness :
    hashFilesSHA256 id [⟨"a", [1]⟩, ⟨"b", [2]⟩]
      ≠ hashFilesSHA256 id [⟨"a", [2]⟩, ⟨"b", [1]⟩] :=
  hashFiles_fingerprints_path_assignment id (fun _ _ h => h) _ _
    (by decide) (by decide) (by decide) (by decide) (by decide)

/-- C2 counterexample: the claim as stated fails.  The two vaults assign the
same two byte contents to the same two paths in swapped ways, yet the byte
streams fed to the hash are identical, because the encoding writes no
delimiter after a file's bytes: with contents `[98, 10, 98, 10]` and
`[98, 10]` ("b\nb\n" and "b\n") under paths "a" and "b", both streams read
"a\nb\nb\nb\nb\n".  Hence the digests agree for every hash primitive,
injective or not. -/
theorem hashFiles_collision_on_swapped_assignment :
    ([⟨"a", [98, 10, 98, 10]⟩, ⟨"b", [98, 10]⟩] : List DemoFile)
        ≠ [⟨"a", [98, 10]⟩, ⟨"b", [98, 10, 98, 10]⟩]
      ∧ List.map DemoFile.fullPath
            [(⟨"a", [98, 10, 98, 10]⟩ : DemoFile), ⟨"b", [98, 10]⟩]
          = List.map DemoFile.fullPath
            [(⟨"a", [98, 10]⟩ : DemoFile), ⟨"b", [98, 10, 98, 10]⟩]
      ∧ (List.map DemoFile.bytes
            [(⟨"a", [98, 10, 98, 10]⟩ : DemoFile), ⟨"b", [98, 10]⟩]).Perm
          (List.map DemoFile.bytes
            [(⟨"a", [98, 10]⟩ : DemoFile), ⟨"b", [98, 10, 98, 10]⟩])
      ∧ hashFilesSHA256 id [⟨"a", [98, 10, 98, 10]⟩, ⟨"b", [98, 10]⟩]
          = hashFilesSHA256 id [⟨"a", [98, 10]⟩, ⟨"b", [98, 10, 98, 10]⟩] := by
  refine ⟨by decide, by decide, by decide, by decide⟩

end Fawv

namespace Fawv

/-- First sanitization step of the upload route:
`f.relPath.replace(/^([./])+/, "")` removes the leading run of dot and
slash characters. -/
def stripLeadingDotsSlashes (s : List Char) : List Char :=
  s.dropWhile (fun c => c = '.' ∨ c = '/')

/-- Second sanitization step: `.replace(/\.\.\//g, "")` removes the
occurrences of the pattern dot-dot-slash in a single left-to-right
non-overlapping scan, without rescanning the already emitted output. -/
def removeDotDotSlash : List Char → List Char
  | [] => []
  | '.' :: '.' :: '/' :: rest => removeDotDotSlash rest
  | c :: rest => c :: removeDotDotSlash rest

/-- `const safePath = f.relPath.replace(/^([./])+/, "").replace(/\.\.\//g, "")`. -/
def safePath (s : String) : String :=
  String.mk (removeDotDotSlash (stripLeadingDotsSlashes s.data))

/-- ``const key = `demo/${sid}/${safePath}` ``. -/
def objectKey (sid : String) (relPath : String) : String :=
  "demo/" ++ sid ++ "/" ++ safePath relPath

/-- The slash-separated segments of a character list. -/
def splitOnSlash : List Char → List (List Char)
  | [] => [[]]
  | '/' :: rest => [] :: splitOnSlash rest
  | c :: rest =>
    match splitOnSlash rest with
    | [] => [[c]]
    | seg :: segs => (c :: seg) :: segs

/-- Whether a path contains a `..` segment. -/
def hasTraversalSegment (s : String) : Bool :=
  (splitOnSlash s.data).contains ['.', '.']

/-- C3: the sanitization is not idempotent, so the claimed invariant fails:
the relative path `a/....//etc/passwd` sanitizes to `a/../etc/passwd`, which
still holds a `..` traversal segment inside the derived object key, while
the claim states that no sanitized path ever contains one.  (The example the
claim cites, `../../etc/passwd`, is indeed neutralised, to `etc/passwd`; the
claim fails on other inputs.) -/
theorem safePath_traversal_bug :
    safePath "a/....//etc/passwd" = "a/../etc/passwd"
      ∧ hasTraversalSegment (safePath "a/....//etc/passwd") = true
      ∧ objectKey "sess01" "a/....//etc/passwd" = "demo/sess01/a/../etc/passwd"
      ∧ safePath "../../etc/passwd" = "etc/passwd" := by
  refine ⟨by decide, by decide, by decide, by decide⟩

end Fawv

namespace Fawv

/-- A file descriptor in the request body of `/upload/start`. -/
structure FileReq where
  relPath : String
  size : Nat
  contentType : Option String
deriving DecidableEq

/-- One item of the session plan returned by `/upload/start`. -/
structure PresignItem where
  relPath : String
  objectKey : String
  s3Uri : String
  uploadUrl : String
  contentType : String
deriving DecidableEq

/-- The response of `/upload/start` on success. -/
structure PresignResponse where
  sessionId : String
  items : List PresignItem
deriving DecidableEq

/-- The error response of the route: an HTTP status and an error tag. -/
structure UploadStartError where
  status : Nat
  error : String
deriving DecidableEq

/-- The allow-list test `/^[a-zA-Z0-9_-]{6,}$/.test(sessionId)`. -/
def isValidSessionId (s : String) : Bool :=
  decide (s.data.length ≥ 6)
    && s.data.all (fun c => c.isAlphanum || c = '_' || c = '-')

/-- Session-id resolution: a client-supplied id passing the allow-list is
kept, otherwise a fresh random hex id (modelled by the `fresh` parameter)
is generated.  An absent or empty id is falsy in the source and also takes
the fresh branch. -/
def resolveSessionId (sessionId : Option String) (fresh : String) : String :=
  match sessionId with
  | some sid => if isValidSessionId sid then sid else fresh
  | none => fresh

/-- `f.contentType || "application/octet-stream"`: the empty string is
falsy. -/
def contentTypeOf : Option String → String
  | some s => if s = "" then "application/octet-stream" else s
  | none => "application/octet-stream"

/-- The per-file plan item built by the route.  `sign` models the external
`getSignedUrl` call of the Storage Credential Issuer (key to signed URL). -/
def mkPresignItem (bucket : String) (sign : String → String) (sid : String)
    (f : FileReq) : PresignItem :=
  { relPath := safePath f.relPath
    objectKey := objectKey sid f.relPath
    s3Uri := "s3://" ++ bucket ++ "/" ++ objectKey sid f.relPath
    uploadUrl := sign (objectKey sid f.relPath)
    contentType := contentTypeOf f.contentType }

/-- The `/upload/start` route.  The first component is the HTTP result; the
second lists the object keys for which an upload grant was requested from
the credential issuer (one `getSignedUrl` call per listed key).  The empty
(or missing, modelled as empty) file list is rejected up front with
`res.status(400).json({ error: "no_files" })`, before any grant request. -/
def uploadStart (bucket : String) (sign : String → String) (fresh : String)
    (sessionId : Option String) (files : List FileReq) :
    Except UploadStartError PresignResponse × List String :=
  if files.isEmpty then
    (Except.error ⟨400, "no_files"⟩, [])
  else
    let sid := resolveSessionId sessionId fresh
    (Except.ok ⟨sid, files.map (mkPresignItem bucket sign sid)⟩,
      files.map (fun f => objectKey sid f.relPath))

/-- The items of a route result, when it succeeded. -/
def planItems : Except UploadStartError PresignResponse → Option (List PresignItem)
  | Except.ok r => some r.items
  | Except.error _ => none

/-- C4: with an empty (or missing) files list the route fails with the
4xx `no_files` error and requests no grant from the credential issuer
(and, returning before any other statement, has no side effects); with a
non-empty list it succeeds and returns exactly one grant item per file. -/
theorem uploadStart_rejects_empty_and_grants_per_file
    (bucket : String) (sign : String → String) (fresh : String)
    (sessionId : Option String) (files : List FileReq) :
    (files = [] →
      uploadStart bucket sign fresh sessionId files
        = (Except.error ⟨400, "no_files"⟩, []))
    ∧ (files ≠ [] →
      (planItems (uploadStart bucket sign fresh sessionId files).1).map
          List.length = some files.length
        ∧ (uploadStart bucket sign fresh sessionId files).2.length
            = files.length) := by
  constructor
  · intro h
    subst h
    rfl
  · intro h
    have hne : files.isEmpty = false := by
      cases files with
      | nil => exact absurd rfl h
      | cons f fs => rfl
    constructor
    · simp [uploadStart, hne, planItems]
    · simp [uploadStart, hne]

/-- C4 witness: the route evaluated at an empty and at a one-file request. -/
theorem uploadStart_rejects_empty_and_grants_per_file_witness :
    uploadStart "b" id "ffffff" none [] = (Except.error ⟨400, "no_files"⟩, [])
      ∧ (planItems (uploadStart "b" id "ffffff" none
            [⟨"x.txt", 1, none⟩]).1).map List.length = some 1
      ∧ (uploadStart "b" id "ffffff" none [⟨"x.txt", 1, none⟩]).2.length = 1 :=
  ⟨(uploadStart_rejects_empty_and_grants_per_file "b" id "ffffff" none []).1 rfl,
    (uploadStart_rejects_empty_and_grants_per_file "b" id "ffffff" none
      [⟨"x.txt", 1, none⟩]).2 (by decide)⟩

end Fawv

namespace Fawv

/-- `const chunkSize = 8 * 1024 * 1024` from the chunked hasher `sha256Hex`
of the upload module. -/
def chunkSize : Nat := 8 * 1024 * 1024

/-- The sizes of the successive slices the `while (offset < total)` loop of
`sha256Hex` feeds to the incremental hasher: each slice is
`file.slice(offset, Math.min(offset + chunkSize, total))`, so it holds
`min chunkSize (total - offset)` bytes and advances the offset by its
length. -/
def chunkSizes (remaining : Nat) : List Nat :=
  if remaining = 0 then []
  else if remaining ≤ chunkSize then [remaining]
  else chunkSize :: chunkSizes (remaining - chunkSize)
termination_by remaining
decreasing_by
  have hpos : 0 < chunkSize := by norm_num [chunkSize]
  omega

/-- C5 (amended): the single-file content hasher `sha256Hex` of the upload
module processes its input in fixed 8 MiB slices: every slice it
materialises is at most `chunkSize` bytes — a size within the recommended
4–16 MiB band — and the slices exactly cover the input, for every total
input size.  (The multi-file archive digest path does not chunk; see the
counterexample.) -/
theorem sha256Hex_chunks_bounded (total : Nat) :
    (∀ c ∈ chunkSizes total, c ≤ chunkSize)
      ∧ (chunkSizes total).sum = total
      ∧ 4 * 1024 * 1024 ≤ chunkSize ∧ chunkSize ≤ 16 * 1024 * 1024 := by
  refine ⟨?_, ?_, by norm_num [chunkSize], by norm_num [chunkSize]⟩
  · induction total using Nat.strong_induction_on with
    | _ total ih =>
      intro c hc
      rw [chunkSizes] at hc
      by_cases h0 : total = 0
      · rw [if_pos h0] at hc
        exact absurd hc (List.not_mem_nil c)
      · rw [if_neg h0] at hc
        by_cases hle : total ≤ chunkSize
        · rw [if_pos hle] at hc
          rcases List.mem_singleton.mp hc with rfl
          exact hle
        · rw [if_neg hle] at hc
          rcases List.mem_cons.mp hc with rfl | hc
          · exact le_refl _
          · have hpos : 0 < chunkSize := by norm_num [chunkSize]
            exact ih (total - chunkSize) (by omega) c hc
  · induction total using Nat.strong_induction_on with
    | _ total ih =>
      rw [chunkSizes]
      by_cases h0 : total = 0
      · rw [if_pos h0, h0]
        rfl
      · rw [if_neg h0]
        by_cases hle : total ≤ chunkSize
        · rw [if_pos hle]
          simp
        · have hpos : 0 < chunkSize := by norm_num [chunkSize]
          have hs := ih (total - chunkSize) (by omega)
          rw [if_neg hle, List.sum_cons, hs]
          omega

/-- C5 witness: a 5-byte input is processed as a single 5-byte slice, within
the chunk bound, and the slices cover the input. -/
theorem sha256Hex_chunks_bounded_witness :
    5 ∈ chunkSizes 5 ∧ 5 ≤ chunkSize ∧ (chunkSizes 5).sum = 5 := by
  have hmem : 5 ∈ chunkSizes 5 := by
    rw [chunkSizes, if_neg (by norm_num : ¬ (5 : Nat) = 0),
      if_pos (by norm_num [chunkSize] : (5 : Nat) ≤ chunkSize)]
    exact List.mem_singleton.mpr rfl
  exact ⟨hmem, (sha256Hex_chunks_bounded 5).1 5 hmem,
    (sha256Hex_chunks_bounded 5).2.1⟩

/-- C5 counterexample: the multi-file archive digest path is not chunked.
`hashFilesSHA256` materialises the whole path-prefixed concatenation in one
`ArrayBuffer`, so a single 32 MiB file makes the peak buffer exceed the
claimed 16 MiB chunk-size bound (and any other fixed bound, since it grows
with the input). -/
theorem hashFiles_peak_buffer_unbounded :
    16 * 1024 * 1024
      < hashFilesPeakBuffer [⟨"a", List.replicate (32 * 1024 * 1024) 0⟩] := by
  have hpeak : ∀ p : String, ∀ b : Bytes,
      hashFilesPeakBuffer [⟨p, b⟩] = (pathBytes p).length + 1 + b.length := by
    intro p b
    simp [hashFilesPeakBuffer, archiveStream, sortFiles, concatParts, filePart,
      List.insertionSort, List.orderedInsert]
    omega
  rw [hpeak "a" (List.replicate (32 * 1024 * 1024) 0), List.length_replicate]
  rw [show (pathBytes "a").length = 1 from rfl]
  norm_num

end Fawv

namespace Fawv

/-- A JavaScript number: NaN, one of the infinities, or a finite value.
Finite values are exact rationals; IEEE rounding and the negative zero are
not modelled (no claim proved here depends on them). -/
inductive JSNum where
  | nan
  | posInf
  | negInf
  | fin (val : ℚ)
deriving DecidableEq

/-- `Number.isNaN`. -/
def JSNum.isNaN : JSNum → Bool
  | .nan => true
  | _ => false

/-- The JavaScript `<` comparison: false whenever either side is NaN. -/
def JSNum.lt : JSNum → JSNum → Bool
  | .nan, _ => false
  | _, .nan => false
  | .negInf, .negInf => false
  | .negInf, _ => true
  | _, .negInf => false
  | .posInf, _ => false
  | .fin _, .posInf => true
  | .fin a, .fin b => decide (a < b)

/-- JavaScript truthiness of a number: NaN and zero are falsy. -/
def JSNum.truthy : JSNum → Bool
  | .nan => false
  | .fin q => decide (q ≠ 0)
  | _ => true

/-- JavaScript division.  Finite division is exact; the zero-divisor and
infinity rules follow IEEE (with the negative zero unmodelled, a zero
divisor counts as positive). -/
def JSNum.div : JSNum → JSNum → JSNum
  | .nan, _ => .nan
  | _, .nan => .nan
  | .posInf, .posInf => .nan
  | .posInf, .negInf => .nan
  | .negInf, .posInf => .nan
  | .negInf, .negInf => .nan
  | .posInf, .fin b => if b < 0 then .negInf else .posInf
  | .negInf, .fin b => if b < 0 then .posInf else .negInf
  | .fin _, .posInf => .fin 0
  | .fin _, .negInf => .fin 0
  | .fin a, .fin b =>
    if b = 0 then (if a = 0 then .nan else if a < 0 then .negInf else .posInf)
    else .fin (a / b)

/-- The numeric value of a digit character. -/
def digitVal (c : Char) : Nat := c.toNat - 48

/-- The natural number denoted by a digit string. -/
def natOfDigits (ds : List Char) : Nat :=
  ds.foldl (fun a c => a * 10 + digitVal c) 0

/-- The unsigned decimal prefix of `parseFloat`: the longest prefix of shape
digits, optional point and fraction digits, optional exponent (the exponent
is only consumed when at least one exponent digit follows, as in
`parseFloat("1e")` being `1`).  `none` when no digit starts the input. -/
def parseUnsigned (cs : List Char) : Option ℚ :=
  let intDigits := cs.takeWhile Char.isDigit
  let rest1 := cs.dropWhile Char.isDigit
  let fracPair : List Char × List Char :=
    match rest1 with
    | '.' :: r => (r.takeWhile Char.isDigit, r.dropWhile Char.isDigit)
    | _ => ([], rest1)
  let fracDigits := fracPair.1
  let rest2 := fracPair.2
  if intDigits.isEmpty ∧ fracDigits.isEmpty then none
  else
    let mant : ℚ :=
      (natOfDigits intDigits : ℚ)
        + (natOfDigits fracDigits : ℚ) / ((10 : ℚ) ^ fracDigits.length)
    let exp : Int :=
      match rest2 with
      | e :: r =>
        if e = 'e' ∨ e = 'E' then
          let signPair : Int × List Char :=
            match r with
            | '+' :: r2 => (1, r2)
            | '-' :: r2 => (-1, r2)
            | _ => (1, r)
          let eds := signPair.2.takeWhile Char.isDigit
          if eds.isEmpty then 0 else signPair.1 * (natOfDigits eds : Int)
        else 0
      | [] => 0
    some (mant * (10 : ℚ) ^ exp)

/-- The JavaScript `parseFloat` builtin, modelled for its documented
grammar: leading whitespace, an optional sign, then either the keyword
`Infinity` or a decimal literal; anything else parses to NaN.  Finite
values are exact (double rounding and overflow to the infinities for
out-of-range literals are outside the model; the claims below use in-range
literals and the `Infinity` keyword, where the model is exact). -/
def parseFloat (s : String) : JSNum :=
  let cs := s.data.dropWhile Char.isWhitespace
  let signPair : Bool × List Char :=
    match cs with
    | '+' :: r => (false, r)
    | '-' :: r => (true, r)
    | _ => (false, cs)
  let neg := signPair.1
  let cs2 := signPair.2
  if cs2.take 8 = "Infinity".data then
    if neg then JSNum.negInf else JSNum.posInf
  else
    match parseUnsigned cs2 with
    | none => JSNum.nan
    | some q => JSNum.fin (if neg then -q else q)

/-- The `String.prototype.trim` of the source, on the character list. -/
def strTrim (s : String) : String :=
  String.mk (((s.data.dropWhile Char.isWhitespace).reverse.dropWhile
    Char.isWhitespace).reverse)

end Fawv

namespace Fawv

/-- The products offered on the product-selection screen. -/
inductive Product where
  | permanence
  | permanencePlus
  | heirloom
deriving DecidableEq

/-- Manifest visibility. -/
inductive VaultVisibility where
  | PUBLIC
  | PRIVATE
deriving DecidableEq

/-- The build steps of the demo flow (the `step` state of `App`). -/
inductive Step where
  | selectProduct
  | upload
  | pricing
  | manifest
  | minting
  | vault
deriving DecidableEq

/-- The position of a step in the forward order of the flow. -/
def Step.stage : Step → Nat
  | .selectProduct => 0
  | .upload => 1
  | .pricing => 2
  | .manifest => 3
  | .minting => 4
  | .vault => 5

/-- The locked endowment record `{ usd, eth, usdPerEth }`. -/
structure EndowmentLock where
  usd : JSNum
  eth : JSNum
  usdPerEth : JSNum
deriving DecidableEq

/-- The token record produced by the mock mint (contents supplied by the
mint's randomness, external to the state machine). -/
structure TokenData where
  contract : String
  tokenId : String
  owner : String
  name : String
  imageDataUrl : String
  tokenUriJson : String
deriving DecidableEq

/-- The in-memory build state of `App` (the `useState` hooks the build flow
reads and writes). -/
structure BuildState where
  started : Bool
  step : Step
  product : Option Product
  escrowYears : Nat
  files : List DemoFile
  vaultName : String
  acceptedPrice : Bool
  manifest : String
  visibility : Option VaultVisibility
  endowmentUsd : String
  endowmentError : Option String
  demoEthPrice : JSNum
  lockedEndowment : Option EndowmentLock
  archiveHash : Bytes
  uploading : Bool
  uploadPct : Nat
  uploadedItems : Option (List PresignItem)
  showTokenModal : Bool
  tokenData : Option TokenData
deriving DecidableEq

/-- The initial values of the `useState` hooks. -/
def initialState : BuildState :=
  { started := false
    step := .selectProduct
    product := none
    escrowYears := 3
    files := []
    vaultName := ""
    acceptedPrice := false
    manifest := ""
    visibility := none
    endowmentUsd := ""
    endowmentError := none
    demoEthPrice := .fin 3200
    lockedEndowment := none
    archiveHash := []
    uploading := false
    uploadPct := 0
    uploadedItems := none
    showTokenModal := false
    tokenData := none }

/-- `resetFlow` from the source: it clears the listed build fields and
returns to the product-selection step.  It does not touch `archiveHash`,
`uploading`, `uploadPct`, `uploadedItems` or `demoEthPrice`. -/
def resetFlow (s : BuildState) : BuildState :=
  { s with
    product := none
    files := []
    vaultName := ""
    acceptedPrice := false
    manifest := ""
    visibility := none
    step := .selectProduct
    escrowYears := 3
    showTokenModal := false
    tokenData := none
    endowmentUsd := ""
    endowmentError := none
    lockedEndowment := none
    started := true }

/-- The validation-error message set by `proceedAfterPricing`. -/
def endowmentErrorMsg : String :=
  "Please enter a valid non-negative USD amount for Endowment, or leave blank."

/-- `proceedAfterPricing` from the source: requires accepted pricing and a
non-blank vault name; validates the optional endowment amount with
`parseFloat`, rejecting NaN and negative values; on success locks the
conversion at the current `demoEthPrice` (falling back to 1 when that price
is falsy or not positive), recomputes the archive hash, and advances to the
manifest step.  The hash stored is modelled by the byte stream the digest
is computed from. -/
def proceedAfterPricing (s : BuildState) : BuildState :=
  if ¬ (s.acceptedPrice = true ∧ strTrim s.vaultName ≠ "") then s
  else
    let trimmed := strTrim s.endowmentUsd
    if trimmed ≠ "" then
      let num := parseFloat trimmed
      if num.isNaN || JSNum.lt num (.fin 0) then
        { s with endowmentError := some endowmentErrorMsg }
      else
        let usdPerEth :=
          if s.demoEthPrice.truthy && JSNum.lt (.fin 0) s.demoEthPrice
          then s.demoEthPrice else .fin 1
        { s with
          lockedEndowment := some ⟨num, num.div usdPerEth, usdPerEth⟩
          endowmentError := none
          archiveHash := if s.files.isEmpty then [] else archiveStream s.files
          step := .manifest }
    else
      { s with
        lockedEndowment := none
        endowmentError := none
        archiveHash := if s.files.isEmpty then [] else archiveStream s.files
        step := .manifest }

/-- `parseFloat(e.target.value) || 0` of the demo-ETH-price input. -/
def ethPriceOf (raw : String) : JSNum :=
  let n := parseFloat raw
  if n.truthy then n else .fin 0

/-- The user-visible events of the build flow.  Each event is guarded by the
step whose screen renders its control. -/
inductive Event where
  | startBuild
  | pickProduct (p : Product)
  | setEscrowYears (y : Nat)
  | setFiles (fs : List DemoFile)
  | setVaultName (v : String)
  | continueToPricing
  | setAcceptedPrice (b : Bool)
  | setEndowmentUsd (v : String)
  | setDemoEthPrice (raw : String)
  | proceedPricing
  | backToUpload
  | setManifest (v : String)
  | setVisibility (v : VaultVisibility)
  | backToPricing
  | submitMint
  | finishMint (tok : TokenData)
  | reset
deriving DecidableEq

/-- One step of the build flow: the handler attached to each control, fired
only when the owning screen is shown. -/
def applyEvent : Event → BuildState → BuildState
  | .startBuild, s => { s with started := true }
  | .pickProduct p, s =>
    if s.step = .selectProduct then { s with product := some p, step := .upload }
    else s
  | .setEscrowYears y, s =>
    if s.step = .selectProduct then { s with escrowYears := y } else s
  | .setFiles fs, s =>
    if s.step = .upload ∧ fs ≠ [] then { s with files := fs } else s
  | .setVaultName v, s =>
    if s.step = .upload then { s with vaultName := v } else s
  | .continueToPricing, s =>
    if s.step = .upload ∧ s.files ≠ [] ∧ strTrim s.vaultName ≠ "" then
      { s with step := .pricing }
    else s
  | .setAcceptedPrice b, s =>
    if s.step = .pricing then { s with acceptedPrice := b } else s
  | .setEndowmentUsd v, s =>
    if s.step = .pricing then { s with endowmentUsd := v, endowmentError := none }
    else s
  | .setDemoEthPrice raw, s =>
    if s.step = .pricing then { s with demoEthPrice := ethPriceOf raw } else s
  | .proceedPricing, s =>
    if s.step = .pricing then proceedAfterPricing s else s
  | .backToUpload, s =>
    if s.step = .pricing then { s with step := .upload } else s
  | .setManifest v, s =>
    if s.step = .manifest then { s with manifest := v } else s
  | .setVisibility v, s =>
    if s.step = .manifest then { s with visibility := some v } else s
  | .backToPricing, s =>
    if s.step = .manifest then { s with step := .pricing } else s
  | .submitMint, s =>
    if s.step = .manifest ∧ strTrim s.manifest ≠ "" ∧ s.visibility.isSome then
      { s with step := .minting }
    else s
  | .finishMint tok, s =>
    if s.step = .minting then
      { s with tokenData := some tok, step := .vault, showTokenModal := true }
    else s
  | .reset, s => resetFlow s

end Fawv

namespace Fawv

/-- C6: accepting pricing with a supplied endowment of 100.00 USD while the
demo rate is 2500 USD/ETH locks `{ usd := 100, eth := 0.04,
usdPerEth := 2500 }`; and a change of the demo ETH price (its input's
onChange handler) never touches a stored lock — the rate is not looked up
again. -/
theorem endowmentLock_point_in_time (s : BuildState)
    (hacc : s.acceptedPrice = true) (hname : strTrim s.vaultName ≠ "")
    (husd : strTrim s.endowmentUsd = "100.00")
    (hrate : s.demoEthPrice = .fin 2500) :
    (proceedAfterPricing s).lockedEndowment
        = some ⟨.fin 100, .fin 0.04, .fin 2500⟩
      ∧ ∀ (s' : BuildState) (raw : String),
          (applyEvent (.setDemoEthPrice raw) s').lockedEndowment
            = s'.lockedEndowment := by
  constructor
  · have hnum : parseFloat "100.00" = JSNum.fin 100 := by
      simp [parseFloat, parseUnsigned, natOfDigits, digitVal]
    have hdiv : (JSNum.fin 100).div (JSNum.fin 2500) = JSNum.fin 0.04 := by
      simp only [JSNum.div]
      norm_num
    rw [proceedAfterPricing, if_neg (by simp [hacc, hname])]
    simp only [husd, hrate, hnum]
    rw [if_pos (by decide : ("100.00" : String) ≠ "")]
    simp only [JSNum.isNaN, JSNum.lt, JSNum.truthy]
    norm_num [hdiv]
  · intro s' raw
    by_cases h : s'.step = Step.pricing <;> simp [applyEvent, h]

/-- C6 witness: the lock built from the pricing screen with usd 100.00 and
rate 2500, and a concrete later rate change leaving a state's lock intact. -/
theorem endowmentLock_point_in_time_witness :
    (proceedAfterPricing { initialState with
        step := .pricing, acceptedPrice := true, vaultName := "v",
        endowmentUsd := "100.00", demoEthPrice := .fin 2500 }).lockedEndowment
      = some ⟨.fin 100, .fin 0.04, .fin 2500⟩
    ∧ (applyEvent (.setDemoEthPrice "9999") { initialState with
        step := .pricing, acceptedPrice := true, vaultName := "v",
        endowmentUsd := "100.00", demoEthPrice := .fin 2500 }).lockedEndowment
      = ({ initialState with
          step := .pricing, acceptedPrice := true, vaultName := "v",
          endowmentUsd := "100.00",
          demoEthPrice := .fin 2500 } : BuildState).lockedEndowment := by
  refine ⟨?_, ?_⟩
  · exact (endowmentLock_point_in_time { initialState with
      step := .pricing, acceptedPrice := true, vaultName := "v",
      endowmentUsd := "100.00", demoEthPrice := .fin 2500 }
      rfl (by decide) (by decide) rfl).1
  · exact (endowmentLock_point_in_time { initialState with
      step := .pricing, acceptedPrice := true, vaultName := "v",
      endowmentUsd := "100.00", demoEthPrice := .fin 2500 }
      rfl (by decide) (by decide) rfl).2 _ "9999"

/-- C7 (amended): with pricing accepted and a non-blank endowment amount,
whenever `parseFloat` of the trimmed amount is NaN or negative the handler
sets the validation error and does not advance (the step and the stored lock
are unchanged); whenever it is non-NaN and non-negative — which includes the
non-finite value Infinity, since the code never checks finiteness — a lock
built from the parsed value and the current rate (or the fallback rate 1) is
stored and the flow advances to the manifest step. -/
theorem proceedAfterPricing_endowment_validation (s : BuildState)
    (hacc : s.acceptedPrice = true) (hname : strTrim s.vaultName ≠ "")
    (hne : strTrim s.endowmentUsd ≠ "") :
    (((parseFloat (strTrim s.endowmentUsd)).isNaN = true
        ∨ JSNum.lt (parseFloat (strTrim s.endowmentUsd)) (.fin 0) = true) →
      (proceedAfterPricing s).endowmentError = some endowmentErrorMsg
        ∧ (proceedAfterPricing s).step = s.step
        ∧ (proceedAfterPricing s).lockedEndowment = s.lockedEndowment)
    ∧ ((parseFloat (strTrim s.endowmentUsd)).isNaN = false
        ∧ JSNum.lt (parseFloat (strTrim s.endowmentUsd)) (.fin 0) = false →
      (proceedAfterPricing s).step = .manifest
        ∧ (proceedAfterPricing s).lockedEndowment
            = some ⟨parseFloat (strTrim s.endowmentUsd),
                (parseFloat (strTrim s.endowmentUsd)).div
                  (if s.demoEthPrice.truthy && JSNum.lt (.fin 0) s.demoEthPrice
                    then s.demoEthPrice else .fin 1),
                if s.demoEthPrice.truthy && JSNum.lt (.fin 0) s.demoEthPrice
                  then s.demoEthPrice else .fin 1⟩
        ∧ (proceedAfterPricing s).endowmentError = none) := by
  rw [proceedAfterPricing, if_neg (by simp [hacc, hname])]
  constructor
  · intro hbad
    have hcond : ((parseFloat (strTrim s.endowmentUsd)).isNaN
        || JSNum.lt (parseFloat (strTrim s.endowmentUsd)) (JSNum.fin 0)) = true := by
      rcases hbad with h | h <;> simp [h]
    simp only [if_pos hne, hcond, if_pos rfl]
    simp
  · intro hgood
    have hcond : ((parseFloat (strTrim s.endowmentUsd)).isNaN
        || JSNum.lt (parseFloat (strTrim s.endowmentUsd)) (JSNum.fin 0)) = false := by
      simp [hgood.1, hgood.2]
    simp only [if_pos hne, hcond]
    simp

/-- C7 witness: the invalid amount `abc` blocks the flow with the
validation error; the valid amount `1` advances it to the manifest step. -/
theorem proceedAfterPricing_endowment_validation_witness :
    (proceedAfterPricing { initialState with
        step := .pricing, acceptedPrice := true, vaultName := "v",
        endowmentUsd := "abc" }).endowmentError = some endowmentErrorMsg
    ∧ (proceedAfterPricing { initialState with
        step := .pricing, acceptedPrice := true, vaultName := "v",
        endowmentUsd := "1" }).step = .manifest :=
  ⟨((proceedAfterPricing_endowment_validation _ rfl (by decide) (by decide)).1
      (Or.inl (by simp [strTrim, parseFloat, parseUnsigned, JSNum.isNaN]))).1,
    ((proceedAfterPricing_endowment_validation _ rfl (by decide) (by decide)).2
      ⟨by simp [strTrim, parseFloat, parseUnsigned, natOfDigits, digitVal,
          JSNum.isNaN],
        by simp [strTrim, parseFloat, parseUnsigned, natOfDigits, digitVal,
          JSNum.lt]⟩).1⟩

/-- C7 counterexample: the string `Infinity` is a supplied endowment amount
that is not a non-negative finite number, yet `parseFloat` accepts it
(`Number.isNaN` is false and it is not below zero), so the handler creates a
lock whose usd and eth fields are Infinity and advances to the manifest
step, where the claim requires a validation error and no advance. -/
theorem proceedAfterPricing_accepts_nonfinite :
    parseFloat (strTrim ({ initialState with
        step := Step.pricing, acceptedPrice := true,
        vaultName := "v", endowmentUsd := "Infinity" } : BuildState).endowmentUsd)
        = JSNum.posInf
      ∧ (proceedAfterPricing { initialState with
          step := Step.pricing, acceptedPrice := true,
          vaultName := "v", endowmentUsd := "Infinity" }).step = Step.manifest
      ∧ (proceedAfterPricing { initialState with
          step := Step.pricing, acceptedPrice := true,
          vaultName := "v", endowmentUsd := "Infinity" }).lockedEndowment
        = some ⟨JSNum.posInf, JSNum.posInf, JSNum.fin 3200⟩
      ∧ (proceedAfterPricing { initialState with
          step := Step.pricing, acceptedPrice := true,
          vaultName := "v", endowmentUsd := "Infinity" }).endowmentError
        = none := by
  refine ⟨?_, ?_, ?_, ?_⟩ <;>
    simp [proceedAfterPricing, initialState, strTrim, parseFloat,
      JSNum.isNaN, JSNum.lt, JSNum.truthy, JSNum.div, endowmentErrorMsg]

end Fawv

namespace Fawv

/-- The response of a PUT to a presigned URL. -/
structure PutResponse where
  status : Nat
  statusText : String
  body : String
deriving DecidableEq

/-- `Response.ok`: any 2xx status. -/
def PutResponse.ok (r : PutResponse) : Bool :=
  decide (200 ≤ r.status) && decide (r.status < 300)

/-- The diagnostic context `uploadToS3` captures on a failed PUT before
throwing: the destination path, the response status and status text, and
the response body (`console.error("S3 PUT failed", { path, status,
statusText, body })`). -/
structure UploadFailure where
  path : String
  status : Nat
  statusText : String
  body : String
deriving DecidableEq

/-- The observable outcome of the upload loop of `uploadToS3`:
* `attempted` records, in order, one entry per PUT actually issued — the
  plan item's relPath and the full path of the matched local file whose
  bytes were sent;
* `done` is the value of the `done` counter (successful PUTs);
* `completed` lists the plan relPaths whose PUT succeeded, in order;
* `failure` carries the diagnostic record of the aborting PUT, none when
  the loop ran to completion. -/
structure UploadRun where
  attempted : List (String × String)
  done : Nat
  completed : List String
  failure : Option UploadFailure
deriving DecidableEq

/-- The `for (const item of plan.items)` loop of `uploadToS3`: each item is
matched to a local file by exact path equality
(`source.find((x) => x.fullPath === item.relPath)`); an unmatched item is
skipped (`continue`); a matched item is PUT (the `put` parameter models the
network transfer); a non-2xx response aborts the loop by throwing after
capturing the diagnostics; a 2xx response increments the counter and
continues. -/
def runUploadLoop (put : PresignItem → PutResponse) (source : List DemoFile) :
    List PresignItem → UploadRun
  | [] => { attempted := [], done := 0, completed := [], failure := none }
  | item :: rest =>
    match source.find? (fun x => decide (x.fullPath = item.relPath)) with
    | none => runUploadLoop put source rest
    | some m =>
      let resp := put item
      if resp.ok then
        let r := runUploadLoop put source rest
        { attempted := (item.relPath, m.fullPath) :: r.attempted
          done := r.done + 1
          completed := item.relPath :: r.completed
          failure := r.failure }
      else
        { attempted := [(item.relPath, m.fullPath)]
          done := 0
          completed := []
          failure := some ⟨item.relPath, resp.status, resp.statusText, resp.body⟩ }

/-- C8: in a five-item plan whose first three items match local files, where
the first two PUTs succeed and the third returns HTTP 403, the loop aborts
carrying the third item's destination path, the 403 status and the response
body; items one and two are the completed ones; and exactly three PUTs were
issued, so items four and five were never attempted. -/
theorem uploadLoop_aborts_on_403 (put : PresignItem → PutResponse)
    (source : List DemoFile) (i1 i2 i3 i4 i5 : PresignItem)
    (m1 : DemoFile) (hm1 : source.find? (fun x => decide (x.fullPath = i1.relPath)) = some m1)
    (m2 : DemoFile) (hm2 : source.find? (fun x => decide (x.fullPath = i2.relPath)) = some m2)
    (m3 : DemoFile) (hm3 : source.find? (fun x => decide (x.fullPath = i3.relPath)) = some m3)
    (h1 : (put i1).ok = true) (h2 : (put i2).ok = true)
    (h3 : (put i3).status = 403) :
    (runUploadLoop put source [i1, i2, i3, i4, i5]).failure
        = some ⟨i3.relPath, 403, (put i3).statusText, (put i3).body⟩
      ∧ (runUploadLoop put source [i1, i2, i3, i4, i5]).completed
          = [i1.relPath, i2.relPath]
      ∧ (runUploadLoop put source [i1, i2, i3, i4, i5]).done = 2
      ∧ (runUploadLoop put source [i1, i2, i3, i4, i5]).attempted
          = [(i1.relPath, m1.fullPath), (i2.relPath, m2.fullPath),
              (i3.relPath, m3.fullPath)] := by
  have h3ok : (put i3).ok = false := by
    simp [PutResponse.ok, h3]
  refine ⟨?_, ?_, ?_, ?_⟩ <;>
    simp [runUploadLoop, hm1, hm2, hm3, h1, h2, h3ok, h3]

/-- C8 witness: a concrete five-item batch over files `a`–`e` whose PUT of
item `c` is rejected with 403. -/
theorem uploadLoop_aborts_on_403_witness :
    (runUploadLoop
        (fun item => if item.relPath = "c"
          then ⟨403, "Forbidden", "AccessDenied"⟩ else ⟨200, "OK", ""⟩)
        [⟨"a", [1]⟩, ⟨"b", [2]⟩, ⟨"c", [3]⟩, ⟨"d", [4]⟩, ⟨"e", [5]⟩]
        [⟨"a", "k/a", "s3://b/k/a", "u/a", "t"⟩,
          ⟨"b", "k/b", "s3://b/k/b", "u/b", "t"⟩,
          ⟨"c", "k/c", "s3://b/k/c", "u/c", "t"⟩,
          ⟨"d", "k/d", "s3://b/k/d", "u/d", "t"⟩,
          ⟨"e", "k/e", "s3://b/k/e", "u/e", "t"⟩]).failure
        = some ⟨"c", 403, "Forbidden", "AccessDenied"⟩
      ∧ (runUploadLoop
          (fun item => if item.relPath = "c"
            then ⟨403, "Forbidden", "AccessDenied"⟩ else ⟨200, "OK", ""⟩)
          [⟨"a", [1]⟩, ⟨"b", [2]⟩, ⟨"c", [3]⟩, ⟨"d", [4]⟩, ⟨"e", [5]⟩]
          [⟨"a", "k/a", "s3://b/k/a", "u/a", "t"⟩,
            ⟨"b", "k/b", "s3://b/k/b", "u/b", "t"⟩,
            ⟨"c", "k/c", "s3://b/k/c", "u/c", "t"⟩,
            ⟨"d", "k/d", "s3://b/k/d", "u/d", "t"⟩,
            ⟨"e", "k/e", "s3://b/k/e", "u/e", "t"⟩]).completed = ["a", "b"]
      ∧ (runUploadLoop
          (fun item => if item.relPath = "c"
            then ⟨403, "Forbidden", "AccessDenied"⟩ else ⟨200, "OK", ""⟩)
          [⟨"a", [1]⟩, ⟨"b", [2]⟩, ⟨"c", [3]⟩, ⟨"d", [4]⟩, ⟨"e", [5]⟩]
          [⟨"a", "k/a", "s3://b/k/a", "u/a", "t"⟩,
            ⟨"b", "k/b", "s3://b/k/b", "u/b", "t"⟩,
            ⟨"c", "k/c", "s3://b/k/c", "u/c", "t"⟩,
            ⟨"d", "k/d", "s3://b/k/d", "u/d", "t"⟩,
            ⟨"e", "k/e", "s3://b/k/e", "u/e", "t"⟩]).attempted
        = [("a", "a"), ("b", "b"), ("c", "c")] := by
  have h := uploadLoop_aborts_on_403
    (fun item => if item.relPath = "c"
      then ⟨403, "Forbidden", "AccessDenied"⟩ else ⟨200, "OK", ""⟩)
    [⟨"a", [1]⟩, ⟨"b", [2]⟩, ⟨"c", [3]⟩, ⟨"d", [4]⟩, ⟨"e", [5]⟩]
    ⟨"a", "k/a", "s3://b/k/a", "u/a", "t"⟩
    ⟨"b", "k/b", "s3://b/k/b", "u/b", "t"⟩
    ⟨"c", "k/c", "s3://b/k/c", "u/c", "t"⟩
    ⟨"d", "k/d", "s3://b/k/d", "u/d", "t"⟩
    ⟨"e", "k/e", "s3://b/k/e", "u/e", "t"⟩
    ⟨"a", [1]⟩ (by decide) ⟨"b", [2]⟩ (by decide) ⟨"c", [3]⟩ (by decide)
    (by decide) (by decide) (by decide)
  exact ⟨h.1, h.2.1, h.2.2.2⟩

end Fawv

namespace Fawv

/-- `proceedAfterPricing` either stays on the current step (validation
failure) or advances to the manifest step. -/
theorem proceedAfterPricing_step_cases (s : BuildState) :
    (proceedAfterPricing s).step = s.step
      ∨ (proceedAfterPricing s).step = Step.manifest := by
  rw [proceedAfterPricing]
  split_ifs <;> simp <;> split_ifs <;> simp

/-- C9 (amended): every event other than reset and the two Back buttons
moves the step forward or leaves it in place; the pricing Back button steps
back to upload and the manifest Back button steps back to pricing (so the
flow is not forward-only); and a user-initiated reset returns to the
product-selection step, discarding the product, files, vault name, pricing
acceptance, manifest, visibility, escrow years, token data and endowment
state, while retaining the computed archive hash, the upload progress and
uploaded-items record, and the demo ETH price. -/
theorem buildFlow_transitions :
    (∀ (e : Event) (s : BuildState),
      e ≠ .reset → e ≠ .backToUpload → e ≠ .backToPricing →
        Step.stage s.step ≤ Step.stage ((applyEvent e s).step))
    ∧ (∀ s : BuildState, s.step = .pricing →
        (applyEvent .backToUpload s).step = .upload)
    ∧ (∀ s : BuildState, s.step = .manifest →
        (applyEvent .backToPricing s).step = .pricing)
    ∧ (∀ s : BuildState,
        (applyEvent .reset s).step = .selectProduct
        ∧ (applyEvent .reset s).product = none
        ∧ (applyEvent .reset s).files = []
        ∧ (applyEvent .reset s).vaultName = ""
        ∧ (applyEvent .reset s).acceptedPrice = false
        ∧ (applyEvent .reset s).manifest = ""
        ∧ (applyEvent .reset s).visibility = none
        ∧ (applyEvent .reset s).escrowYears = 3
        ∧ (applyEvent .reset s).tokenData = none
        ∧ (applyEvent .reset s).endowmentUsd = ""
        ∧ (applyEvent .reset s).endowmentError = none
        ∧ (applyEvent .reset s).lockedEndowment = none
        ∧ (applyEvent .reset s).archiveHash = s.archiveHash
        ∧ (applyEvent .reset s).uploadPct = s.uploadPct
        ∧ (applyEvent .reset s).uploadedItems = s.uploadedItems
        ∧ (applyEvent .reset s).demoEthPrice = s.demoEthPrice) := by
  refine ⟨?_, ?_, ?_, ?_⟩
  · intro e s hr hb1 hb2
    cases e with
    | startBuild => simp [applyEvent]
    | pickProduct p =>
      by_cases h : s.step = Step.selectProduct
      · simp [applyEvent, h, Step.stage]
      · simp [applyEvent, h]
    | setEscrowYears y =>
      simp only [applyEvent]
      split_ifs <;> simp
    | setFiles fs =>
      simp only [applyEvent]
      split_ifs <;> simp
    | setVaultName v =>
      simp only [applyEvent]
      split_ifs <;> simp
    | continueToPricing =>
      by_cases h : s.step = Step.upload ∧ s.files ≠ [] ∧ strTrim s.vaultName ≠ ""
      · simp [applyEvent, h, h.1, Step.stage]
      · simp [applyEvent, h]
    | setAcceptedPrice b =>
      simp only [applyEvent]
      split_ifs <;> simp
    | setEndowmentUsd v =>
      simp only [applyEvent]
      split_ifs <;> simp
    | setDemoEthPrice raw =>
      simp only [applyEvent]
      split_ifs <;> simp
    | proceedPricing =>
      by_cases h : s.step = Step.pricing
      · rcases proceedAfterPricing_step_cases s with h2 | h2 <;>
          simp [applyEvent, h, h2, Step.stage]
      · simp [applyEvent, h]
    | backToUpload => exact absurd rfl hb1
    | setManifest v =>
      simp only [applyEvent]
      split_ifs <;> simp
    | setVisibility v =>
      simp only [applyEvent]
      split_ifs <;> simp
    | backToPricing => exact absurd rfl hb2
    | submitMint =>
      by_cases h : s.step = Step.manifest ∧ strTrim s.manifest ≠ ""
          ∧ s.visibility.isSome
      · simp [applyEvent, h, h.1, Step.stage]
      · simp [applyEvent, h]
    | finishMint tok =>
      by_cases h : s.step = Step.minting
      · simp [applyEvent, h, Step.stage]
      · simp [applyEvent, h]
    | reset => exact absurd rfl hr
  · intro s h
    simp [applyEvent, h]
  · intro s h
    simp [applyEvent, h]
  · intro s
    refine ⟨rfl, rfl, rfl, rfl, rfl, rfl, rfl, rfl, rfl, rfl, rfl, rfl,
      rfl, rfl, rfl, rfl⟩

/-- C9 witness: a concrete forward event from the initial state, the two
Back buttons on their screens, and a concrete reset. -/
theorem buildFlow_transitions_witness :
    Step.stage initialState.step
        ≤ Step.stage ((applyEvent (.pickProduct .permanence) initialState).step)
      ∧ (applyEvent .backToUpload
          { initialState with step := Step.pricing }).step = .upload
      ∧ (applyEvent .backToPricing
          { initialState with step := Step.manifest }).step = .pricing
      ∧ (applyEvent .reset initialState).step = .selectProduct :=
  ⟨buildFlow_transitions.1 (.pickProduct .permanence) initialState
      (by decide) (by decide) (by decide),
    buildFlow_transitions.2.1 { initialState with step := Step.pricing } rfl,
    buildFlow_transitions.2.2.1 { initialState with step := Step.manifest } rfl,
    (buildFlow_transitions.2.2.2 initialState).1⟩

/-- C9 counterexample: the claim as stated fails in two ways.  The pricing
screen's Back button is a transition other than reset that moves from the
pricing stage back to the earlier upload stage (and not to the initial
product-selection step); and reset does not discard all in-memory build
state: the computed archive hash survives it (as do the upload progress
fields), differing from its initial value. -/
theorem buildFlow_backward_and_reset_retention :
    (applyEvent .backToUpload { initialState with step := Step.pricing }).step
        = Step.upload
      ∧ Step.stage ((applyEvent .backToUpload
            { initialState with step := Step.pricing }).step)
          < Step.stage (Step.pricing)
      ∧ (applyEvent .backToUpload
            { initialState with step := Step.pricing }).step
          ≠ Step.selectProduct
      ∧ (applyEvent .reset
            { initialState with step := Step.vault, archiveHash := [1] }).archiveHash
          = [1]
      ∧ initialState.archiveHash = [] := by
  refine ⟨rfl, by decide, by decide, rfl, rfl⟩

end Fawv

namespace Fawv

/-- Every PUT the upload loop issues comes from a plan item that found a
matching local file: the recorded pair is that item's relPath and the
matched file's full path. -/
theorem runUploadLoop_attempted_spec (put : PresignItem → PutResponse)
    (source : List DemoFile) :
    ∀ (items : List PresignItem) (pr : String × String),
      pr ∈ (runUploadLoop put source items).attempted →
      ∃ item, ∃ m, item ∈ items
        ∧ source.find? (fun x => decide (x.fullPath = item.relPath)) = some m
        ∧ pr = (item.relPath, m.fullPath)
  | [], pr, h => by simp [runUploadLoop] at h
  | item :: rest, pr, h => by
    cases hfind : source.find? (fun x => decide (x.fullPath = item.relPath)) with
    | none =>
      simp only [runUploadLoop, hfind] at h
      obtain ⟨it, m, hmem, hfd, hpr⟩ :=
        runUploadLoop_attempted_spec put source rest pr h
      exact ⟨it, m, List.mem_cons_of_mem _ hmem, hfd, hpr⟩
    | some m =>
      by_cases hok : (put item).ok = true
      · simp only [runUploadLoop, hfind, hok, if_true] at h
        rcases List.mem_cons.mp h with hpr | h2
        · exact ⟨item, m, List.mem_cons_self item rest, hfind, hpr⟩
        · obtain ⟨it, m2, hmem, hfd, hpr⟩ :=
            runUploadLoop_attempted_spec put source rest pr h2
          exact ⟨it, m2, List.mem_cons_of_mem _ hmem, hfd, hpr⟩
      · have hok' : (put item).ok = false := by
          simpa using hok
        simp only [runUploadLoop, hfind, hok', Bool.false_eq_true, if_false,
          List.mem_singleton] at h
        exact ⟨item, m, List.mem_cons_self item rest, hfind, h⟩

/-- A failure recorded by the upload loop names a plan item that found a
matching local file. -/
theorem runUploadLoop_failure_spec (put : PresignItem → PutResponse)
    (source : List DemoFile) :
    ∀ (items : List PresignItem) (fl : UploadFailure),
      (runUploadLoop put source items).failure = some fl →
      ∃ item, ∃ m, item ∈ items
        ∧ source.find? (fun x => decide (x.fullPath = item.relPath)) = some m
        ∧ fl.path = item.relPath
  | [], fl, h => by simp [runUploadLoop] at h
  | item :: rest, fl, h => by
    cases hfind : source.find? (fun x => decide (x.fullPath = item.relPath)) with
    | none =>
      simp only [runUploadLoop, hfind] at h
      obtain ⟨it, m, hmem, hfd, hp⟩ :=
        runUploadLoop_failure_spec put source rest fl h
      exact ⟨it, m, List.mem_cons_of_mem _ hmem, hfd, hp⟩
    | some m =>
      by_cases hok : (put item).ok = true
      · simp only [runUploadLoop, hfind, hok, if_true] at h
        obtain ⟨it, m2, hmem, hfd, hp⟩ :=
          runUploadLoop_failure_spec put source rest fl h
        exact ⟨it, m2, List.mem_cons_of_mem _ hmem, hfd, hp⟩
      · have hok' : (put item).ok = false := by
          simpa using hok
        simp only [runUploadLoop, hfind, hok', Bool.false_eq_true, if_false,
          Option.some.injEq] at h
        exact ⟨item, m, List.mem_cons_self item rest, hfind, by rw [← h]⟩

/-- C10 (amended): for a local file whose submitted relative path is
altered by the server's sanitization, the session plan item derived from it
carries the sanitized path; provided no local file's path equals that
sanitized path, and no other file's sanitized path equals the altered
file's original path, the executor issues no PUT for the item (its exact
path match finds nothing), the file's bytes are never sent, and no upload
failure names the item — the file is silently skipped. -/
theorem sanitized_item_silently_skipped
    (bucket : String) (sign : String → String) (fresh : String)
    (sessionId : Option String) (put : PresignItem → PutResponse)
    (locals : List DemoFile) (f : DemoFile)
    (hf : f ∈ locals)
    (halt : safePath f.fullPath ≠ f.fullPath)
    (hnomatch : ∀ g ∈ locals, g.fullPath ≠ safePath f.fullPath)
    (hnoalias : ∀ g ∈ locals, safePath g.fullPath ≠ f.fullPath) :
    ∃ plan : PresignResponse,
      (uploadStart bucket sign fresh sessionId
          (locals.map (fun g => (⟨g.fullPath, g.bytes.length, none⟩ : FileReq)))).1
        = Except.ok plan
      ∧ plan.items.map PresignItem.relPath
          = locals.map (fun g => safePath g.fullPath)
      ∧ (∀ pr ∈ (runUploadLoop put locals plan.items).attempted,
          pr.1 ≠ safePath f.fullPath ∧ pr.2 ≠ f.fullPath)
      ∧ (∀ fl : UploadFailure,
          (runUploadLoop put locals plan.items).failure = some fl →
          fl.path ≠ safePath f.fullPath) := by
  have hnil : locals ≠ [] := by
    intro h
    rw [h] at hf
    exact absurd hf (List.not_mem_nil f)
  have hne : (locals.map
      (fun g => (⟨g.fullPath, g.bytes.length, none⟩ : FileReq))).isEmpty = false := by
    cases locals with
    | nil => exact absurd rfl hnil
    | cons a l => rfl
  have hitem_of_mem : ∀ plan : PresignResponse,
      (uploadStart bucket sign fresh sessionId
          (locals.map (fun g => (⟨g.fullPath, g.bytes.length, none⟩ : FileReq)))).1
        = Except.ok plan →
      ∀ item ∈ plan.items, ∃ g ∈ locals, item.relPath = safePath g.fullPath := by
    intro plan hplan item hmem
    rw [uploadStart] at hplan
    rw [if_neg (by rw [hne]; exact Bool.false_ne_true)] at hplan
    injection hplan with hplan
    rw [← hplan] at hmem
    simp only [List.map_map, List.mem_map] at hmem
    obtain ⟨g, hg, hgi⟩ := hmem
    refine ⟨g, hg, ?_⟩
    rw [← hgi]
    rfl
  refine ⟨⟨resolveSessionId sessionId fresh,
    (locals.map (fun g => (⟨g.fullPath, g.bytes.length, none⟩ : FileReq))).map
      (mkPresignItem bucket sign (resolveSessionId sessionId fresh))⟩, ?_, ?_, ?_, ?_⟩
  · rw [uploadStart, if_neg (by rw [hne]; exact Bool.false_ne_true)]
  · simp [mkPresignItem, List.map_map, Function.comp]
  · intro pr hpr
    obtain ⟨item, m, hmem, hfd, hpreq⟩ :=
      runUploadLoop_attempted_spec put locals _ pr hpr
    have hmfind : m ∈ locals := List.mem_of_find?_eq_some hfd
    have hmpath : m.fullPath = item.relPath := by
      have := List.find?_some hfd
      simpa using this
    obtain ⟨g, hg, hgrel⟩ := hitem_of_mem _ (by
      rw [uploadStart, if_neg (by rw [hne]; exact Bool.false_ne_true)]) item hmem
    constructor
    · rw [hpreq]
      intro hcontra
      simp only at hcontra
      exact hnomatch m hmfind (by rw [hmpath, hcontra])
    · rw [hpreq]
      intro hcontra
      simp only at hcontra
      exact hnoalias g hg (by rw [← hgrel, ← hmpath, hcontra])
  · intro fl hfl
    obtain ⟨item, m, hmem, hfd, hp⟩ :=
      runUploadLoop_failure_spec put locals _ fl hfl
    have hmfind : m ∈ locals := List.mem_of_find?_eq_some hfd
    have hmpath : m.fullPath = item.relPath := by
      have := List.find?_some hfd
      simpa using this
    intro hcontra
    exact hnomatch m hmfind (by rw [hmpath, ← hp, hcontra])

end Fawv

namespace Fawv

/-- C10 witness: the file `./x` is sanitized to `x`; with no local file
named `x`, its plan item is skipped: no PUT names it and no failure names
it, while the plan item does carry the sanitized path. -/
theorem sanitized_item_silently_skipped_witness :
    ∃ plan : PresignResponse,
      (uploadStart "b" id "ffffff" none
          (([⟨"./x", [1]⟩, ⟨"y", [2]⟩] : List DemoFile).map
            (fun g => (⟨g.fullPath, g.bytes.length, none⟩ : FileReq)))).1
        = Except.ok plan
      ∧ plan.items.map PresignItem.relPath
          = ([⟨"./x", [1]⟩, ⟨"y", [2]⟩] : List DemoFile).map
              (fun g => safePath g.fullPath)
      ∧ (∀ pr ∈ (runUploadLoop (fun _ => ⟨200, "OK", ""⟩)
            [⟨"./x", [1]⟩, ⟨"y", [2]⟩] plan.items).attempted,
          pr.1 ≠ safePath (⟨"./x", [1]⟩ : DemoFile).fullPath
            ∧ pr.2 ≠ (⟨"./x", [1]⟩ : DemoFile).fullPath)
      ∧ (∀ fl : UploadFailure,
          (runUploadLoop (fun _ => ⟨200, "OK", ""⟩)
              [⟨"./x", [1]⟩, ⟨"y", [2]⟩] plan.items).failure = some fl →
          fl.path ≠ safePath (⟨"./x", [1]⟩ : DemoFile).fullPath) :=
  sanitized_item_silently_skipped "b" id "ffffff" none (fun _ => ⟨200, "OK", ""⟩)
    [⟨"./x", [1]⟩, ⟨"y", [2]⟩] ⟨"./x", [1]⟩
    (by decide) (by decide) (by decide) (by decide)

/-- C10 counterexample: the claim as stated fails in two ways.  First, with
local files `./a` and `a`, the file `./a` is altered by sanitization to
`a`, yet the executor's exact path match for that plan item does find a
local file (the other file `a`) — it does not "find no matching local
file".  Second, with local files `a/../x` and `a/....//x`, the second path
sanitizes to `a/../x` (the sanitizer bug of C3), the first — altered to
`a/x` — equals that sanitized path, and the run's attempted list shows a
PUT whose matched source is exactly the altered file `a/../x`: the altered
file is uploaded, not skipped. -/
theorem sanitization_mismatch_silent_skip_fails :
    (safePath "./a" ≠ "./a"
      ∧ (([⟨"./a", [1]⟩, ⟨"a", [2]⟩] : List DemoFile).find?
            (fun x => decide (x.fullPath = safePath "./a"))).isSome = true)
    ∧ (safePath "a/../x" ≠ "a/../x"
      ∧ (planItems (uploadStart "b" (fun k => k) "ffffff" none
            (([⟨"a/../x", [1]⟩, ⟨"a/....//x", [2]⟩] : List DemoFile).map
              (fun g => (⟨g.fullPath, g.bytes.length, none⟩ : FileReq)))).1).map
            (fun items => (runUploadLoop (fun _ => ⟨200, "OK", ""⟩)
              [⟨"a/../x", [1]⟩, ⟨"a/....//x", [2]⟩] items).attempted)
          = some [("a/../x", "a/../x")]) := by
  refine ⟨⟨by decide, by decide⟩, by decide, by decide⟩

end Fawv
